import Mathlib

/-!
Verification of the core backend logic of the Rclone-GUI repository
(src/backend/onedrive/onedrive.go and src/backend/pcloud/pcloud.go),
via a shallow embedding in Lean 4.

Strings are modelled at the rune level as `List Char`; machine integers
(Go `int64`) are modelled as `Int` with Go's truncated division and
remainder (`Int.tdiv`, `Int.tmod`); byte counts and sizes known to be
non-negative are modelled as `Nat`.  Code of the repository that is not
under src/ (lib/pacer, lib/dircache, fs/fserrors) is modelled from the
spec; each such definition carries a doc comment starting
`Modelled from the spec:`.
-/

namespace RcloneCore

/-! ## pcloud reserved-character mapping (pcloud.go, replaceReservedChars /
restoreReservedChars)

The source file literally replaces each backslash with the three-character
string of three QUESTION MARK characters, and restores every occurrence of
that three-character string to a backslash (the comments in the source say
FULLWIDTH REVERSE SOLIDUS, but the string literals in the file consist of
three ASCII question marks).  `strings.Replace(x, old, new, -1)` with a
single-rune `old` maps each occurrence; with a multi-rune `old` it scans
left to right replacing non-overlapping occurrences. -/

/-- Embedding of pcloud.go `replaceReservedChars`: replace every backslash
with the three-question-mark string, exactly as the string literals in the
source file read. -/
def replaceReservedChars : List Char → List Char
  | [] => []
  | c :: rest =>
    if c = '\\' then '?' :: '?' :: '?' :: replaceReservedChars rest
    else c :: replaceReservedChars rest

/-- Embedding of pcloud.go `restoreReservedChars`: replace every
(leftmost, non-overlapping) occurrence of the three-question-mark string
with a backslash. -/
def restoreReservedChars : List Char → List Char
  | '?' :: '?' :: '?' :: rest => '\\' :: restoreReservedChars rest
  | c :: rest => c :: restoreReservedChars rest
  | [] => []

/-- C10: the reserved-character mapping does not round-trip.  The input
consisting of three question marks contains no FULLWIDTH REVERSE SOLIDUS
(and no backslash), is left unchanged by `replaceReservedChars`, yet
`restoreReservedChars` turns it into a single backslash, so
`restoreReservedChars (replaceReservedChars x) = x` fails.  This happens
because the source file uses the literal string of three question marks
where its own comment says FULLWIDTH REVERSE SOLIDUS. -/
theorem pcloud_reserved_chars_roundtrip_fails :
    ('＼' ∉ ['?', '?', '?']) ∧
    replaceReservedChars ['?', '?', '?'] = ['?', '?', '?'] ∧
    restoreReservedChars (replaceReservedChars ['?', '?', '?']) = ['\\'] ∧
    restoreReservedChars (replaceReservedChars ['?', '?', '?']) ≠ ['?', '?', '?'] := by
  refine ⟨by decide, rfl, rfl, by decide⟩

/-! ## onedrive chunk-size validation (onedrive.go, NewFs)

`NewFs` parses the config and then checks
`opt.ChunkSize%(320*1024) != 0` before touching the network; the first
network call (`readMetaDataForPath ""`) happens only later.  Go `%` on
`int64` is truncated remainder, `Int.tmod`. -/

/-- Events of the initial phase of onedrive `NewFs`, in order:
either the chunk-size check fails (and construction stops with an error
before any network call), or the check passes and the first network call
(`readMetaDataForPath ""` to get the root ID) is issued. -/
inductive NewFsEvent
  | chunkSizeError
  | networkCall
deriving DecidableEq

/-- Embedding of the start of onedrive `NewFs`: the returned Bool is
`true` iff construction fails at the chunk-size check; the event list
records what happened, in order. -/
def onedriveNewFsStart (chunkSize : Int) : List NewFsEvent × Bool :=
  if chunkSize.tmod (320 * 1024) ≠ 0 then ([NewFsEvent.chunkSizeError], true)
  else ([NewFsEvent.networkCall], false)

/-- C2: onedrive `NewFs` fails before any network call whenever the
configured chunk size is not a multiple of 320 KiB, and does not fail on
this check when it is a multiple. -/
theorem onedrive_chunk_size_validation (c : Int) :
    (c.tmod (320 * 1024) ≠ 0 →
      (onedriveNewFsStart c).2 = true ∧
        NewFsEvent.networkCall ∉ (onedriveNewFsStart c).1) ∧
    (c.tmod (320 * 1024) = 0 → (onedriveNewFsStart c).2 = false) := by
  constructor
  · intro h
    unfold onedriveNewFsStart
    rw [if_pos h]
    exact ⟨rfl, by decide⟩
  · intro h
    unfold onedriveNewFsStart
    rw [if_neg (fun hn => hn h)]

/-- Witness for C2 at the misaligned chunk size 1000 and the aligned
chunk size 320*1024. -/
theorem onedrive_chunk_size_validation_witness :
    ((onedriveNewFsStart 1000).2 = true ∧
      NewFsEvent.networkCall ∉ (onedriveNewFsStart 1000).1) ∧
    (onedriveNewFsStart (320 * 1024)).2 = false :=
  ⟨(onedrive_chunk_size_validation 1000).1 (by decide),
   (onedrive_chunk_size_validation (320 * 1024)).2 (by decide)⟩

/-! ## retryability classification (onedrive.go / pcloud.go, shouldRetry) -/

/-- An HTTP response, reduced to the fields `shouldRetry` inspects:
the status code and the values of the Www-Authenticate header. -/
structure HttpResp where
  status : Nat
  wwwAuth : List (List Char)
deriving DecidableEq

/-- The errors `shouldRetry` can receive: a provider application error
carrying a numeric result code (pcloud `api.Error`), or a generic network
failure that `fserrors.ShouldRetry` classifies as retryable or not. -/
inductive ApiErr
  | apiError (result : Int)
  | network (retryable : Bool)
deriving DecidableEq

/-- Embedding of the `retryErrorCodes` slice shared by both backends. -/
def retryErrorCodes : List Nat := [429, 500, 502, 503, 504, 509]

/-- Modelled from the spec: `fserrors.ShouldRetry` (fs/fserrors, not under
src/) classifies generic transient network failures (timeouts, connection
resets) as retryable. -/
def fserrorsShouldRetry : Option ApiErr → Bool
  | some (ApiErr.network r) => r
  | _ => false

/-- Modelled from the spec: `fserrors.ShouldRetryHTTP` (fs/fserrors, not
under src/) retries when there is a response whose status code is in the
given list. -/
def fserrorsShouldRetryHTTP : Option HttpResp → List Nat → Bool
  | some r, codes => codes.contains r.status
  | none, _ => false

/-- The marker substring searched for in the Www-Authenticate header. -/
def expiredTokenMark : List Char :=
  ['e', 'x', 'p', 'i', 'r', 'e', 'd', '_', 't', 'o', 'k', 'e', 'n']

/-- Substring containment at the rune level, the meaning of Go
`strings.Index(s, pat) >= 0`: `pat` occurs contiguously somewhere in
`s`. -/
def containsSeq (pat : List Char) (s : List Char) : Bool :=
  pat.isPrefixOf s ||
    match s with
    | [] => false
    | _ :: rest => containsSeq pat rest

/-- Embedding of the 401/expired-token check shared by both `shouldRetry`
functions: response present, status 401, exactly one Www-Authenticate
value, and that value contains "expired_token". -/
def authRetryCheck : Option HttpResp → Bool
  | some r =>
    r.status == 401 && r.wwwAuth.length == 1 &&
      containsSeq expiredTokenMark (r.wwwAuth.headD [])
  | none => false

/-- Embedding of onedrive.go `shouldRetry`. -/
def onedriveShouldRetry (resp : Option HttpResp) (err : Option ApiErr) :
    Bool × Option ApiErr :=
  let authRety := authRetryCheck resp
  (authRety || fserrorsShouldRetry err ||
    fserrorsShouldRetryHTTP resp retryErrorCodes, err)

/-- Embedding of the pcloud api.Error classification in pcloud.go
`shouldRetry`: retry when `Result / 1000` is 4 or 5 (Go truncated
division). -/
def pcloudApiRetry : Option ApiErr → Bool
  | some (ApiErr.apiError n) => n.tdiv 1000 == 4 || n.tdiv 1000 == 5
  | _ => false

/-- Embedding of pcloud.go `shouldRetry`. -/
def pcloudShouldRetry (resp : Option HttpResp) (err : Option ApiErr) :
    Bool × Option ApiErr :=
  let doRetry := pcloudApiRetry err || authRetryCheck resp
  (doRetry || fserrorsShouldRetry err ||
    fserrorsShouldRetryHTTP resp retryErrorCodes, err)

/-- The retryability condition exactly as the claim words it: transient
status class 429/500/502/503/504/509, or a generic retryable network
failure, or a 401 whose single Www-Authenticate header contains
"expired_token", or (for pcloud) an API error code in the 4xxx or 5xxx
range. -/
def claimRetryable (forPcloud : Bool) (resp : Option HttpResp)
    (err : Option ApiErr) : Bool :=
  (match resp with
   | some r =>
     decide (r.status = 429 ∨ r.status = 500 ∨ r.status = 502 ∨
       r.status = 503 ∨ r.status = 504 ∨ r.status = 509)
   | none => false) ||
  fserrorsShouldRetry err ||
  (match resp with
   | some r =>
     decide (r.status = 401) && decide (r.wwwAuth.length = 1) &&
       containsSeq expiredTokenMark (r.wwwAuth.headD [])
   | none => false) ||
  (forPcloud &&
    (match err with
     | some (ApiErr.apiError n) => decide (4000 ≤ n ∧ n ≤ 5999)
     | _ => false))

set_option maxHeartbeats 2000000 in
/-- C6: both backend `shouldRetry` predicates return `true` exactly under
the conditions listed in the claim, and return the error unchanged as the
second component. -/
theorem shouldRetry_classification (resp : Option HttpResp)
    (err : Option ApiErr) :
    onedriveShouldRetry resp err = (claimRetryable false resp err, err) ∧
    pcloudShouldRetry resp err = (claimRetryable true resp err, err) := by
  have hstatus : ∀ s : Nat,
      (retryErrorCodes.contains s = true) ↔
        (s = 429 ∨ s = 500 ∨ s = 502 ∨ s = 503 ∨ s = 504 ∨ s = 509) := by
    intro s
    simp [retryErrorCodes, List.contains, List.elem_eq_mem]
  have tdivLe : ∀ n : Int, n < 0 → n.tdiv 1000 ≤ 0 := by
    intro n hn
    have h1 : (0 : Int) ≤ -n := by omega
    have h2 := Int.tdiv_nonneg h1 (by norm_num : (0 : Int) ≤ 1000)
    have h3 := Int.neg_tdiv (-n) 1000
    rw [neg_neg] at h3
    omega
  have hrange : ∀ n : Int,
      (n.tdiv 1000 = 4 ∨ n.tdiv 1000 = 5) ↔ (4000 ≤ n ∧ n ≤ 5999) := by
    intro n
    rcases le_or_lt 0 n with hn | hn
    · rw [Int.tdiv_eq_ediv hn (by norm_num : (0 : Int) ≤ 1000)]
      omega
    · have := tdivLe n hn
      omega
  constructor
  · refine Prod.ext ?_ rfl
    rcases resp with _ | r <;> rcases err with _ | e <;> try cases e
    all_goals
      simp only [onedriveShouldRetry, claimRetryable, authRetryCheck,
        fserrorsShouldRetry, fserrorsShouldRetryHTTP, pcloudApiRetry]
    all_goals rw [Bool.eq_iff_iff]
    all_goals
      simp only [Bool.or_eq_true, Bool.and_eq_true, beq_iff_eq,
        decide_eq_true_eq, Bool.false_eq_true, hstatus, false_or, or_false,
        false_and, and_false]
    all_goals tauto
  · refine Prod.ext ?_ rfl
    rcases resp with _ | r <;> rcases err with _ | e <;> try cases e
    all_goals
      simp only [pcloudShouldRetry, claimRetryable, authRetryCheck,
        fserrorsShouldRetry, fserrorsShouldRetryHTTP, pcloudApiRetry]
    all_goals rw [Bool.eq_iff_iff]
    all_goals
      simp only [Bool.or_eq_true, Bool.and_eq_true, beq_iff_eq,
        decide_eq_true_eq, Bool.false_eq_true, hstatus, hrange, false_or,
        or_false, false_and, and_false, Bool.true_and]
    all_goals tauto

/-! ## chunked upload fragment loop (onedrive.go, uploadMultipart)

The loop is
```
remaining := size; position := 0
for remaining > 0 {
  n := min(ChunkSize, remaining)
  uploadFragment(url, position, size, seg, n)
  remaining -= n; position += n
}
```
Sizes are non-negative byte counts, modelled as `Nat`.  The recursion is
written with an explicit fuel argument, which is sufficient as soon as
`fuel ≥ remaining` because each iteration consumes at least one byte. -/

/-- One step per loop iteration of the fragment loop: the list of
(position, fragmentSize) pairs uploaded, starting with `remaining` bytes
left at byte offset `pos`. -/
def fragsAuxF : Nat → Nat → Nat → Nat → List (Nat × Nat)
  | 0, _, _, _ => []
  | fuel + 1, chunkSize, remaining, pos =>
    if 0 < remaining ∧ 0 < chunkSize then
      (pos, min chunkSize remaining) ::
        fragsAuxF fuel chunkSize (remaining - min chunkSize remaining)
          (pos + min chunkSize remaining)
    else []

/-- The (position, size) pairs of the fragments `uploadMultipart` uploads
for a declared total size `size` and configured chunk size `chunkSize`. -/
def uploadFragments (size chunkSize : Nat) : List (Nat × Nat) :=
  fragsAuxF size chunkSize size 0

/-- `seqFromB p l` holds when the fragments `l` are strictly sequential
and non-overlapping starting at byte offset `p`: each fragment starts
exactly where the previous one ended and has positive size. -/
def seqFromB : Nat → List (Nat × Nat) → Bool
  | _, [] => true
  | p, f :: rest =>
    decide (f.1 = p) && decide (0 < f.2) && seqFromB (f.1 + f.2) rest

theorem fragsAuxF_zero (fuel chunkSize pos : Nat) :
    fragsAuxF fuel chunkSize 0 pos = [] := by
  cases fuel with
  | zero => rfl
  | succ n => simp [fragsAuxF]

theorem fragsAuxF_sum (chunkSize : Nat) (hC : 0 < chunkSize) :
    ∀ fuel remaining pos, remaining ≤ fuel →
      ((fragsAuxF fuel chunkSize remaining pos).map Prod.snd).sum =
        remaining := by
  intro fuel
  induction fuel with
  | zero =>
    intro remaining pos h
    interval_cases remaining
    rfl
  | succ n ih =>
    intro remaining pos h
    by_cases hr : 0 < remaining
    · rw [fragsAuxF, if_pos ⟨hr, hC⟩]
      have hmin : min chunkSize remaining ≤ remaining :=
        Nat.min_le_right chunkSize remaining
      have hpos : 0 < min chunkSize remaining := lt_min_iff.mpr ⟨hC, hr⟩
      have := ih (remaining - min chunkSize remaining)
        (pos + min chunkSize remaining) (by omega)
      simp only [List.map_cons, List.sum_cons, this]
      omega
    · have : remaining = 0 := by omega
      subst this
      rw [fragsAuxF_zero]
      rfl

theorem fragsAuxF_seq (chunkSize : Nat) (hC : 0 < chunkSize) :
    ∀ fuel remaining pos,
      seqFromB pos (fragsAuxF fuel chunkSize remaining pos) = true := by
  intro fuel
  induction fuel with
  | zero => intro remaining pos; rfl
  | succ n ih =>
    intro remaining pos
    by_cases hr : 0 < remaining
    · rw [fragsAuxF, if_pos ⟨hr, hC⟩]
      have hpos : 0 < min chunkSize remaining := lt_min_iff.mpr ⟨hC, hr⟩
      simp only [seqFromB, ih, Bool.and_true]
      simp [hpos]
    · have : remaining = 0 := by omega
      subst this
      rw [fragsAuxF_zero]
      rfl

theorem fragsAuxF_get (chunkSize : Nat) (hC : 0 < chunkSize) :
    ∀ fuel remaining pos i,
      i < (fragsAuxF fuel chunkSize remaining pos).length →
      (fragsAuxF fuel chunkSize remaining pos)[i]? =
        some (pos + chunkSize * i,
          min chunkSize (remaining - chunkSize * i)) := by
  intro fuel
  induction fuel with
  | zero =>
    intro remaining pos i h
    simp [fragsAuxF] at h
  | succ n ih =>
    intro remaining pos i h
    by_cases hr : 0 < remaining
    · rw [fragsAuxF, if_pos ⟨hr, hC⟩] at h ⊢
      cases i with
      | zero => simp
      | succ j =>
        simp only [List.length_cons, Nat.succ_lt_succ_iff] at h
        simp only [List.getElem?_cons_succ]
        rw [ih (remaining - min chunkSize remaining)
          (pos + min chunkSize remaining) j h]
        have htail :
            fragsAuxF n chunkSize (remaining - min chunkSize remaining)
              (pos + min chunkSize remaining) ≠ [] := by
          intro hnil
          rw [hnil] at h
          simp at h
        have hrem : 0 < remaining - min chunkSize remaining := by
          by_contra hzero
          have : remaining - min chunkSize remaining = 0 := by omega
          exact htail (this ▸ fragsAuxF_zero n chunkSize _)
        have hminC : min chunkSize remaining = chunkSize := by
          have := Nat.min_le_right chunkSize remaining
          rcases Nat.le_total chunkSize remaining with hle | hle
          · exact Nat.min_eq_left hle
          · have : min chunkSize remaining = remaining :=
              Nat.min_eq_right hle
            omega
        rw [hminC]
        have e1 : pos + chunkSize + chunkSize * j =
            pos + chunkSize * (j + 1) := by ring
        have e2 : remaining - chunkSize - chunkSize * j =
            remaining - chunkSize * (j + 1) := by
          have : chunkSize * (j + 1) = chunkSize + chunkSize * j := by ring
          omega
        rw [e1, e2]
    · have : remaining = 0 := by omega
      subst this
      rw [fragsAuxF_zero] at h
      simp at h

/-- C4: for declared total size `size` and positive chunk size
`chunkSize`, the fragments of `uploadMultipart` are strictly sequential
and non-overlapping, the i-th fragment is uploaded at position
`chunkSize * i` with size `min chunkSize (size - chunkSize * i)` (that
is, `min(chunkSize, remaining)`), and the fragment sizes sum exactly to
the declared total size. -/
theorem uploadMultipart_fragment_layout (size chunkSize : Nat)
    (hC : 0 < chunkSize) :
    ((uploadFragments size chunkSize).map Prod.snd).sum = size ∧
    seqFromB 0 (uploadFragments size chunkSize) = true ∧
    ∀ i, i < (uploadFragments size chunkSize).length →
      (uploadFragments size chunkSize)[i]? =
        some (chunkSize * i, min chunkSize (size - chunkSize * i)) := by
  refine ⟨fragsAuxF_sum chunkSize hC size size 0 le_rfl,
    fragsAuxF_seq chunkSize hC size size 0, ?_⟩
  intro i h
  have := fragsAuxF_get chunkSize hC size size 0 i h
  simpa using this

/-- Witness for C4 at size 5 and chunk size 2: fragments
(0,2), (2,2), (4,1). -/
theorem uploadMultipart_fragment_layout_witness :
    ((uploadFragments 5 2).map Prod.snd).sum = 5 ∧
    seqFromB 0 (uploadFragments 5 2) = true ∧
    uploadFragments 5 2 = [(0, 2), (2, 2), (4, 1)] :=
  ⟨(uploadMultipart_fragment_layout 5 2 (by decide)).1,
   (uploadMultipart_fragment_layout 5 2 (by decide)).2.1,
   by decide⟩

/-! ## upload failure handling (onedrive.go, uploadMultipart /
cancelUploadSession)

`uploadMultipart` creates the session, registers a deferred handler that
— only when the function is returning a non-nil error — issues one
best-effort `cancelUploadSession` whose own failure is only logged, and
then uploads the fragments in order, returning the first fragment error
without touching later fragments. -/

/-- Observable calls made by `uploadMultipart`, in order: the
session-creation call, the upload call of the fragment with the given
index, and the session-cancellation call (recording whether the
cancellation itself succeeded; its outcome is only logged). -/
inductive UEvent
  | createSession
  | fragUpload (idx : Nat)
  | cancelSession (ok : Bool)
deriving DecidableEq

/-- Errors `uploadMultipart` can return: session creation failed, or the
upload of the fragment with the given index failed. -/
inductive UErr
  | createFailed
  | fragFailed (idx : Nat)
deriving DecidableEq

/-- The fragment loop: `outcomes i` tells whether the upload of fragment
`i` succeeds.  Returns the fragment-upload events in order and the index
of the first failing fragment, if any.  On a failure the loop stops
immediately. -/
def runFrags (outcomes : Nat → Bool) :
    List (Nat × Nat) → Nat → List UEvent × Option Nat
  | [], _ => ([], none)
  | _ :: rest, idx =>
    if outcomes idx then
      let r := runFrags outcomes rest (idx + 1)
      (UEvent.fragUpload idx :: r.1, r.2)
    else ([UEvent.fragUpload idx], some idx)

/-- Embedding of `uploadMultipart` as a trace: create the session, run
the fragment loop, and on a fragment failure fire the deferred
cancellation (recording `cancelOk`, whose value never reaches the
result) and return the fragment error. -/
def uploadMultipartRun (createOk : Bool) (outcomes : Nat → Bool)
    (cancelOk : Bool) (size chunkSize : Nat) :
    List UEvent × Option UErr :=
  if createOk then
    match runFrags outcomes (uploadFragments size chunkSize) 0 with
    | (evs, some k) =>
      (UEvent.createSession :: evs ++ [UEvent.cancelSession cancelOk],
        some (UErr.fragFailed k))
    | (evs, none) => (UEvent.createSession :: evs, none)
  else ([UEvent.createSession], some UErr.createFailed)

theorem runFrags_events (outcomes : Nat → Bool) :
    ∀ (frags : List (Nat × Nat)) (idx : Nat),
      ∀ e ∈ (runFrags outcomes frags idx).1,
        ∃ j, e = UEvent.fragUpload j := by
  intro frags
  induction frags with
  | nil => intro idx e he; simp [runFrags] at he
  | cons f rest ih =>
    intro idx e he
    rw [runFrags] at he
    by_cases ho : outcomes idx
    · rw [if_pos ho] at he
      simp only [List.mem_cons] at he
      rcases he with he | he
      · exact ⟨idx, he⟩
      · exact ih (idx + 1) e he
    · rw [if_neg ho] at he
      simp only [List.mem_singleton] at he
      exact ⟨idx, he⟩

theorem runFrags_fail (outcomes : Nat → Bool) :
    ∀ (frags : List (Nat × Nat)) (idx k : Nat),
      idx ≤ k → k < idx + frags.length →
      (∀ j, idx ≤ j → j < k → outcomes j = true) →
      outcomes k = false →
      (runFrags outcomes frags idx).2 = some k ∧
      ∀ j, k < j →
        UEvent.fragUpload j ∉ (runFrags outcomes frags idx).1 := by
  intro frags
  induction frags with
  | nil =>
    intro idx k h1 h2 _ _
    simp at h2
    omega
  | cons f rest ih =>
    intro idx k h1 h2 hpre hk
    rcases Nat.eq_or_lt_of_le h1 with heq | hlt
    · subst heq
      rw [runFrags, if_neg (by simp [hk])]
      refine ⟨rfl, ?_⟩
      intro j hj
      simp only [List.mem_singleton]
      intro hcontra
      have : j = idx := by
        injection hcontra
      omega
    · have hoidx : outcomes idx = true := hpre idx le_rfl hlt
      rw [runFrags, if_pos hoidx]
      have hrec := ih (idx + 1) k hlt
        (by simp only [List.length_cons] at h2; omega)
        (fun j hj1 hj2 => hpre j (by omega) hj2) hk
      refine ⟨hrec.1, ?_⟩
      intro j hj
      simp only [List.mem_cons]
      rintro (hcontra | hcontra)
      · have : j = idx := by injection hcontra
        omega
      · exact hrec.2 j hj hcontra

/-- C3: if the session was created and the upload of fragment `k` is the
first to fail, `uploadMultipart` issues exactly one session-cancellation
call, uploads no fragment after `k`, and returns the fragment-`k` error;
the outcome of the cancellation call itself never changes the returned
error. -/
theorem uploadMultipart_cancel_on_failure (outcomes : Nat → Bool)
    (cancelOk : Bool) (size chunkSize k : Nat)
    (hk : k < (uploadFragments size chunkSize).length)
    (hfail : outcomes k = false)
    (hpre : ∀ j, j < k → outcomes j = true) :
    ((uploadMultipartRun true outcomes cancelOk size chunkSize).1.countP
        fun e => match e with
          | UEvent.cancelSession _ => true
          | _ => false) = 1 ∧
    (∀ j, k < j →
      UEvent.fragUpload j ∉
        (uploadMultipartRun true outcomes cancelOk size chunkSize).1) ∧
    (uploadMultipartRun true outcomes cancelOk size chunkSize).2 =
      some (UErr.fragFailed k) ∧
    (uploadMultipartRun true outcomes true size chunkSize).2 =
      (uploadMultipartRun true outcomes false size chunkSize).2 := by
  have hmain := runFrags_fail outcomes (uploadFragments size chunkSize) 0 k
    (Nat.zero_le k) (by omega) (fun j _ hj => hpre j hj) hfail
  have hevents := runFrags_events outcomes (uploadFragments size chunkSize) 0
  rcases hR : runFrags outcomes (uploadFragments size chunkSize) 0
    with ⟨evs, res⟩
  rw [hR] at hmain hevents
  simp only at hmain hevents
  obtain ⟨hres, hafter⟩ := hmain
  subst hres
  have hAll : ∀ co : Bool,
      uploadMultipartRun true outcomes co size chunkSize =
        (UEvent.createSession :: evs ++ [UEvent.cancelSession co],
          some (UErr.fragFailed k)) := by
    intro co
    unfold uploadMultipartRun
    rw [hR]
    rfl
  rw [hAll cancelOk, hAll true, hAll false]
  refine ⟨?_, ?_, rfl, rfl⟩
  · have hzero :
        (evs.countP fun e => match e with
          | UEvent.cancelSession _ => true
          | _ => false) = 0 := by
      rw [List.countP_eq_zero]
      intro e he
      rcases hevents e he with ⟨j, rfl⟩
      simp
    simp [List.countP_cons, List.countP_append, hzero]
  · intro j hj hcontra
    simp only [List.cons_append, List.mem_cons, List.mem_append,
      List.mem_singleton] at hcontra
    rcases hcontra with hcontra | hcontra | hcontra
    · exact absurd hcontra (by simp)
    · exact hafter j hj hcontra
    · exact absurd hcontra (by simp)

/-- Witness for C3: size 5, chunk size 2 (three fragments), the upload of
fragment 1 fails while fragment 0 succeeds. -/
theorem uploadMultipart_cancel_on_failure_witness :
    ((uploadMultipartRun true (fun j => decide (j ≠ 1)) true 5 2).1.countP
        fun e => match e with
          | UEvent.cancelSession _ => true
          | _ => false) = 1 ∧
    (∀ j, 1 < j →
      UEvent.fragUpload j ∉
        (uploadMultipartRun true (fun j => decide (j ≠ 1)) true 5 2).1) ∧
    (uploadMultipartRun true (fun j => decide (j ≠ 1)) true 5 2).2 =
      some (UErr.fragFailed 1) ∧
    (uploadMultipartRun true (fun j => decide (j ≠ 1)) true 5 2).2 =
      (uploadMultipartRun true (fun j => decide (j ≠ 1)) false 5 2).2 :=
  uploadMultipart_cancel_on_failure (fun j => decide (j ≠ 1)) true 5 2 1
    (by decide) (by decide)
    (fun j hj => by
      have : j = 0 := by omega
      subst this
      rfl)

/-! ## per-attempt rewind in uploadFragment (onedrive.go, uploadFragment)

The pacer attempt closure executes `chunk.Seek(0, io.SeekStart)` before
each `srv.Call`, so every attempt — first try and retries alike — sends
the fragment from its start.  The chunk is a rewindable reader modelled
as its byte list plus a cursor. -/

/-- Observable actions of one `uploadFragment` attempt: the seek to the
start of the chunk and the byte-range request carrying the bytes read
from the reader's current position. -/
inductive FragEv
  | seekStart
  | issue (bytes : List Nat)
deriving DecidableEq

/-- The rewindable fragment reader: its bytes and the read cursor. -/
structure ChunkReader where
  data : List Nat
  cursor : Nat
deriving DecidableEq

/-- One pacer attempt of `uploadFragment`: seek the chunk to offset 0,
then issue the request reading everything from the (rewound) cursor,
leaving the cursor at the end. -/
def uploadFragmentAttempt (c : ChunkReader) :
    ChunkReader × List FragEv :=
  let rewound : ChunkReader := { c with cursor := 0 }
  let sent := rewound.data.drop rewound.cursor
  ({ rewound with cursor := rewound.data.length },
    [FragEv.seekStart, FragEv.issue sent])

/-- The trace of `attempts` successive pacer attempts of
`uploadFragment` on the chunk reader `c` (first try plus retries). -/
def uploadFragmentRun : ChunkReader → Nat → List FragEv
  | _, 0 => []
  | c, n + 1 =>
    (uploadFragmentAttempt c).2 ++ uploadFragmentRun (uploadFragmentAttempt c).1 n

/-- C7: every attempt of `uploadFragment` first seeks the chunk to its
start and then issues the request with the full chunk bytes, so retried
fragments are byte-identical to the first attempt: the trace of any
number of attempts is the seek-then-issue pair repeated, and every
issued request carries exactly the chunk's bytes. -/
theorem uploadFragment_rewinds_every_attempt (c : ChunkReader) (n : Nat) :
    uploadFragmentRun c n =
      (List.replicate n
        [FragEv.seekStart, FragEv.issue c.data]).flatten ∧
    ∀ b, FragEv.issue b ∈ uploadFragmentRun c n → b = c.data := by
  have htrace : ∀ m (r : ChunkReader), r.data = c.data →
      uploadFragmentRun r m =
        (List.replicate m
          [FragEv.seekStart, FragEv.issue c.data]).flatten := by
    intro m
    induction m with
    | zero => intro r _; rfl
    | succ p ih =>
      intro r hr
      rw [uploadFragmentRun, List.replicate_succ, List.flatten_cons,
        ih (uploadFragmentAttempt r).1 (by simp [uploadFragmentAttempt, hr])]
      simp [uploadFragmentAttempt, hr]
  refine ⟨htrace n c rfl, ?_⟩
  intro b hb
  rw [htrace n c rfl] at hb
  simp only [List.mem_flatten, List.mem_replicate] at hb
  rcases hb with ⟨l, ⟨_, rfl⟩, hmem⟩
  simp only [List.mem_cons, List.mem_singleton, List.not_mem_nil,
    or_false] at hmem
  rcases hmem with h | h
  · simp at h
  · first
    | exact h
    | exact FragEv.issue.inj h

/-! ## pcloud whole-file upload issued without retries (pcloud.go,
Object.Update)

`Update` sends the `/uploadfile` request through `CallNoRetry`; the
pacer is lib/pacer, not under src/, so `CallNoRetry` is modelled from
the spec. -/

/-- Modelled from the spec: lib/pacer `CallNoRetry(attempt)` — "invokes
exactly once; used where blind re-execution could corrupt state".  The
attempt transforms a state and reports (shouldRetry, error); the result
is the error, the retry flag never triggers re-execution. -/
def pacerCallNoRetry {σ ε : Type} (attempt : σ → σ × Bool × Option ε)
    (s : σ) : σ × Option ε :=
  ((attempt s).1, (attempt s).2.2)

/-- Errors of the pcloud upload call. -/
inductive UpdateErr
  | uploadFailed (code : Nat)
deriving DecidableEq

/-- Embedding of the upload call in pcloud.go `Object.Update`: the
`/uploadfile` request goes through the pacer's no-retry path.  The state
counts how many upload requests have been issued; `result i` is the
(shouldRetry, error) classification of the i-th issued request. -/
def pcloudUpdateUploadRun (result : Nat → Bool × Option UpdateErr) :
    Nat × Option UpdateErr :=
  pacerCallNoRetry (fun count => (count + 1, result count)) 0

/-- C8: the pcloud `Update` upload request is issued exactly once — for
every classification of the attempt, including one marked retryable, the
request counter ends at 1 and the attempt's own error is returned. -/
theorem pcloud_update_upload_called_once
    (result : Nat → Bool × Option UpdateErr) :
    (pcloudUpdateUploadRun result).1 = 1 ∧
    (pcloudUpdateUploadRun result).2 = (result 0).2 :=
  ⟨rfl, rfl⟩

/-! ## DirectoryCache eviction after DirMove / Rmdir / Purge
(onedrive.go DirMove, pcloud.go purgeCheck; lib/dircache FlushDir is not
under src/ and is modelled from the spec)

Cached paths are segment lists relative to the root; the cache is an
association list from path to provider ID. -/

/-- A directory path as a list of segments. -/
abbrev DPath := List String

/-- The path-to-ID portion of a DirectoryCache. -/
abbrev DirIdCache := List (DPath × String)

/-- `underPath p q` holds when `q` lies under the subtree `p`,
inclusive: `p` is a segment-prefix of `q`. -/
def underPath (p q : DPath) : Bool := p.isPrefixOf q

/-- Modelled from the spec: lib/dircache `FlushDir(path)` — "evicts
every cached entry whose path lies under `path` (inclusive)". -/
def flushDir (p : DPath) (c : DirIdCache) : DirIdCache :=
  c.filter fun e => !underPath p e.1

/-- Cache lookup: the ID stored for the path `q`, if any. -/
def cacheGet (c : DirIdCache) (q : DPath) : Option String :=
  (c.find? fun e => e.1 == q).map Prod.snd

/-- Embedding of the cache effect of onedrive.go / pcloud.go `DirMove`:
on success the source cache is flushed at the moved subtree
(`srcFs.dirCache.FlushDir(srcRemote)`); on failure it is untouched. -/
def dirMoveCacheAfter (success : Bool) (srcRemote : DPath)
    (c : DirIdCache) : DirIdCache :=
  if success then flushDir srcRemote c else c

/-- Embedding of the cache effect of `purgeCheck` (behind `Rmdir` and
`Purge`): on success the cache is flushed at the deleted directory
(`f.dirCache.FlushDir(dir)`); on failure it is untouched. -/
def purgeCheckCacheAfter (success : Bool) (dir : DPath)
    (c : DirIdCache) : DirIdCache :=
  if success then flushDir dir c else c

theorem flushDir_cons (s : DPath) (e : DPath × String)
    (rest : DirIdCache) :
    flushDir s (e :: rest) =
      if underPath s e.1 then flushDir s rest
      else e :: flushDir s rest := by
  simp only [flushDir, List.filter_cons]
  cases underPath s e.1 <;> simp

theorem cacheGet_cons (e : DPath × String) (rest : DirIdCache)
    (q : DPath) :
    cacheGet (e :: rest) q =
      if e.1 == q then some e.2 else cacheGet rest q := by
  simp only [cacheGet, List.find?_cons]
  cases hq : (e.1 == q) <;> simp [hq]

theorem cacheGet_flushDir_under (s q : DPath) (c : DirIdCache)
    (h : underPath s q = true) : cacheGet (flushDir s c) q = none := by
  induction c with
  | nil => rfl
  | cons e rest ih =>
    rw [flushDir_cons]
    cases hkeep : underPath s e.1 with
    | true =>
      rw [if_pos rfl]
      exact ih
    | false =>
      rw [if_neg (by simp), cacheGet_cons]
      have hne : (e.1 == q) = false := by
        rw [beq_eq_false_iff_ne]
        intro hcontra
        rw [hcontra, h] at hkeep
        cases hkeep
      rw [if_neg (by rw [hne]; simp)]
      exact ih

theorem cacheGet_flushDir_outside (s q : DPath) (c : DirIdCache)
    (h : underPath s q = false) :
    cacheGet (flushDir s c) q = cacheGet c q := by
  induction c with
  | nil => rfl
  | cons e rest ih =>
    rw [flushDir_cons, cacheGet_cons]
    cases hkeep : underPath s e.1 with
    | true =>
      rw [if_pos rfl]
      have hne : (e.1 == q) = false := by
        rw [beq_eq_false_iff_ne]
        intro hcontra
        rw [hcontra] at hkeep
        rw [h] at hkeep
        cases hkeep
      rw [if_neg (by rw [hne]; simp)]
      exact ih
    | false =>
      rw [if_neg (by simp), cacheGet_cons]
      cases hq : (e.1 == q) with
      | true => rw [if_pos rfl, if_pos rfl]
      | false =>
        rw [if_neg (by simp), if_neg (by simp)]
        exact ih

/-- C9: after a successful `DirMove` of subtree `s` (and likewise after
a successful `Rmdir`/`Purge` of directory `s` via `purgeCheck`), every
cached entry whose path lies under `s` (inclusive) is gone from the
cache, and every entry outside `s` resolves exactly as before. -/
theorem dirMove_purge_flush_cache (s q : DPath) (c : DirIdCache) :
    (underPath s q = true →
      cacheGet (dirMoveCacheAfter true s c) q = none ∧
      cacheGet (purgeCheckCacheAfter true s c) q = none) ∧
    (underPath s q = false →
      cacheGet (dirMoveCacheAfter true s c) q = cacheGet c q ∧
      cacheGet (purgeCheckCacheAfter true s c) q = cacheGet c q) := by
  constructor
  · intro h
    exact ⟨cacheGet_flushDir_under s q c h, cacheGet_flushDir_under s q c h⟩
  · intro h
    exact ⟨cacheGet_flushDir_outside s q c h,
      cacheGet_flushDir_outside s q c h⟩

/-- Witness for C9: cache entries under the moved subtree are evicted
and an unrelated entry keeps its ID. -/
theorem dirMove_purge_flush_cache_witness :
    (cacheGet (dirMoveCacheAfter true ["a", "b"]
        [(["a", "b", "c"], "id1"), (["x"], "id2")]) ["a", "b", "c"] =
      none) ∧
    (cacheGet (dirMoveCacheAfter true ["a", "b"]
        [(["a", "b", "c"], "id1"), (["x"], "id2")]) ["x"] =
      cacheGet [(["a", "b", "c"], "id1"), (["x"], "id2")] ["x"]) :=
  ⟨((dirMove_purge_flush_cache ["a", "b"] ["a", "b", "c"]
      [(["a", "b", "c"], "id1"), (["x"], "id2")]).1 (by decide)).1,
   ((dirMove_purge_flush_cache ["a", "b"] ["x"]
      [(["a", "b", "c"], "id1"), (["x"], "id2")]).2 (by decide)).1⟩

/-! ## pacer backoff shape (lib/pacer, not under src/; both backends
construct it in NewFs with SetMinSleep/SetMaxSleep/SetDecayConstant)

The pacer itself is not under src/, so the backoff step functions are
modelled from the spec: on failure `sleep = min(MaxSleep, sleep * 2)`;
on success `sleep = max(MinSleep, sleep / 2^(1/DecayConstant))`.  The
per-success decay factor `2^(-1/DecayConstant)` is an arbitrary rational
`decay` with `0 < decay < 1`; sleep intervals are rationals. -/

/-- Modelled from the spec: the pacer sleep update after a retryable
failure — `sleep = min(MaxSleep, sleep * 2)`. -/
def pacerOnFailure (maxSleep s : ℚ) : ℚ := min maxSleep (2 * s)

/-- Modelled from the spec: the pacer sleep update after a success —
`sleep = max(MinSleep, decay * sleep)` with `decay = 2^(-1/DecayConstant)`. -/
def pacerOnSuccess (minSleep decay s : ℚ) : ℚ := max minSleep (decay * s)

theorem pacerOnFailure_invariant (minSleep maxSleep s : ℚ)
    (h0 : 0 ≤ minSleep) (hmm : minSleep ≤ maxSleep)
    (h1 : minSleep ≤ s) (h2 : s ≤ maxSleep) :
    s ≤ pacerOnFailure maxSleep s ∧
    minSleep ≤ pacerOnFailure maxSleep s ∧
    pacerOnFailure maxSleep s ≤ maxSleep := by
  unfold pacerOnFailure
  refine ⟨le_min h2 (by linarith), le_min hmm (by linarith), min_le_left _ _⟩

theorem pacerOnSuccess_iterate (minSleep decay : ℚ)
    (h0 : 0 ≤ minSleep) (hd0 : 0 ≤ decay) (hd1 : decay ≤ 1) :
    ∀ (n : Nat) (s : ℚ), minSleep ≤ s →
      (pacerOnSuccess minSleep decay)^[n] s =
        max minSleep (decay ^ n * s) := by
  intro n
  induction n with
  | zero =>
    intro s hs
    simp [max_eq_right hs]
  | succ p ih =>
    intro s hs
    rw [Function.iterate_succ_apply', ih s hs]
    unfold pacerOnSuccess
    rcases le_total (decay ^ p * s) minSleep with hcase | hcase
    · rw [max_eq_left hcase]
      have hsmall : decay ^ (p + 1) * s ≤ minSleep := by
        have hps : 0 ≤ decay ^ p * s :=
          mul_nonneg (pow_nonneg hd0 p) (le_trans h0 hs)
        calc decay ^ (p + 1) * s = decay * (decay ^ p * s) := by ring
          _ ≤ 1 * (decay ^ p * s) := by
              exact mul_le_mul_of_nonneg_right hd1 hps
          _ = decay ^ p * s := by ring
          _ ≤ minSleep := hcase
      rw [max_eq_left hsmall]
      have : decay * minSleep ≤ minSleep := by nlinarith
      rw [max_eq_left this]
    · rw [max_eq_right hcase]
      have : decay * (decay ^ p * s) = decay ^ (p + 1) * s := by ring
      rw [this]

/-- C5: with `0 < MinSleep ≤ sleep ≤ MaxSleep` and a decay factor in
(0, 1), the sleep interval is non-decreasing and capped by `MaxSleep`
along any run of consecutive retryable failures, and some finite number
of consecutive successes brings it back to exactly `MinSleep`. -/
theorem pacer_backoff_shape (minSleep maxSleep decay s : ℚ)
    (hmin : 0 < minSleep) (hmm : minSleep ≤ maxSleep)
    (hd0 : 0 < decay) (hd1 : decay < 1)
    (hs1 : minSleep ≤ s) (hs2 : s ≤ maxSleep) :
    (∀ k : Nat,
      (pacerOnFailure maxSleep)^[k] s ≤
        (pacerOnFailure maxSleep)^[k + 1] s ∧
      (pacerOnFailure maxSleep)^[k] s ≤ maxSleep) ∧
    (∃ n : Nat, (pacerOnSuccess minSleep decay)^[n] s = minSleep) := by
  constructor
  · have hinv : ∀ k : Nat,
        minSleep ≤ (pacerOnFailure maxSleep)^[k] s ∧
          (pacerOnFailure maxSleep)^[k] s ≤ maxSleep := by
      intro k
      induction k with
      | zero => exact ⟨hs1, hs2⟩
      | succ p ih =>
        rw [Function.iterate_succ_apply']
        have := pacerOnFailure_invariant minSleep maxSleep
          ((pacerOnFailure maxSleep)^[p] s) (le_of_lt hmin) hmm ih.1 ih.2
        exact ⟨this.2.1, this.2.2⟩
    intro k
    refine ⟨?_, (hinv k).2⟩
    rw [Function.iterate_succ_apply']
    exact (pacerOnFailure_invariant minSleep maxSleep
      ((pacerOnFailure maxSleep)^[k] s) (le_of_lt hmin) hmm
      (hinv k).1 (hinv k).2).1
  · have hspos : 0 < s := lt_of_lt_of_le hmin hs1
    obtain ⟨n, hn⟩ :=
      exists_pow_lt_of_lt_one (div_pos hmin hspos) hd1
    refine ⟨n, ?_⟩
    rw [pacerOnSuccess_iterate minSleep decay (le_of_lt hmin)
      (le_of_lt hd0) (le_of_lt hd1) n s hs1]
    have : decay ^ n * s ≤ minSleep := by
      rw [lt_div_iff₀ hspos] at hn
      linarith
    exact max_eq_left this

/-- Witness for C5 at MinSleep 1, MaxSleep 4, decay 1/2, sleep 2. -/
theorem pacer_backoff_shape_witness :
    (∀ k : Nat,
      (pacerOnFailure 4)^[k] 2 ≤ (pacerOnFailure 4)^[k + 1] 2 ∧
      (pacerOnFailure 4)^[k] 2 ≤ 4) ∧
    (∃ n : Nat, (pacerOnSuccess 1 (1/2))^[n] 2 = 1) :=
  pacer_backoff_shape 1 4 (1/2) 2 (by norm_num) (by norm_num)
    (by norm_num) (by norm_num) (by norm_num) (by norm_num)

/-! ## root-is-file resolution in NewFs (onedrive.go / pcloud.go, NewFs;
then List)

Both `NewFs` functions share the shape: try `dirCache.FindRoot(false)`
on the configured root; on failure split the root into (parent, leaf)
with `dircache.SplitPath`, build a new Fs whose root (and dirCache) is
the parent, retry `FindRoot`, and if the leaf then resolves to an
existing file return the parent-scoped Fs together with
`fs.ErrorIsFile`.  `List(dir)` resolves `dir` against the Fs root and
returns all children of that directory (src `List` + `listAll`).

The provider-side world is a set of directory paths and a set of file
paths, as segment lists.  `FindRoot` and `SplitPath` live in
lib/dircache, which is not under src/: they are modelled from the spec
(`FindRoot(create=false)` fails with DirNotFound iff the root is not an
existing directory; `SplitPath` splits into (parent, leaf)). -/

/-- The provider-side state: which directory paths and which file paths
exist.  Paths are segment lists; `[]` is the remote root. -/
structure FsWorld where
  dirs : List DPath
  files : List DPath
deriving DecidableEq

/-- Modelled from the spec: lib/dircache `FindRoot(create=false)`
succeeds exactly when the configured root names an existing
directory. -/
def findRootOk (w : FsWorld) (root : DPath) : Bool := w.dirs.contains root

/-- Modelled from the spec: lib/dircache `SplitPath` — splits a path
into (parent, leaf). -/
def splitPath (p : DPath) : DPath × String := (p.dropLast, p.getLastD "")

/-- The outcome of `NewFs` root resolution: the root of the returned Fs
plus how it resolved — as a directory (`ok`, no error), as the parent
of an existing file (`isFile`, returned with `fs.ErrorIsFile`), or
neither (`fallback`: the code returns the original Fs with no error). -/
inductive NewFsOutcome
  | ok
  | isFile
  | fallback
deriving DecidableEq

/-- Embedding of the root-resolution logic of onedrive.go / pcloud.go
`NewFs`: try the configured root as a directory; otherwise re-root at
the parent and check whether the leaf names an existing file. -/
def backendNewFsRoot (w : FsWorld) (root : DPath) : DPath × NewFsOutcome :=
  if findRootOk w root then (root, NewFsOutcome.ok)
  else if findRootOk w (splitPath root).1 then
    if w.files.contains ((splitPath root).1 ++ [(splitPath root).2]) then
      ((splitPath root).1, NewFsOutcome.isFile)
    else (root, NewFsOutcome.fallback)
  else (root, NewFsOutcome.fallback)

/-- The entries a provider listing of directory `dirId` returns: the
(leaf name, isDirectory) pairs of every existing directory and file
whose parent is `dirId` (src `listAll`). -/
def childEntries (w : FsWorld) (dirId : DPath) : List (String × Bool) :=
  ((w.dirs.filter fun p => p.dropLast == dirId && !p.isEmpty).map
    fun p => (p.getLastD "", true)) ++
  ((w.files.filter fun p => p.dropLast == dirId && !p.isEmpty).map
    fun p => (p.getLastD "", false))

/-- Embedding of src `List dir` on an Fs rooted at `fsRoot`: resolve the
root, resolve `dir` below it, and return all entries of that
directory. -/
def fsList (w : FsWorld) (fsRoot dir : DPath) :
    Option (List (String × Bool)) :=
  if findRootOk w fsRoot then
    if w.dirs.contains (fsRoot ++ dir) then
      some (childEntries w (fsRoot ++ dir))
    else none
  else none

/-- A world where directory a/b holds the file a/b/r and a second file
a/b/o. -/
def cexWorld : FsWorld :=
  { dirs := [[], ["a"], ["a", "b"]],
    files := [["a", "b", "r"], ["a", "b", "o"]] }

/-- C1, counterexample: with root a/b/r naming an existing file under
existing directory a/b, `NewFs` does resolve as parent-of-file with the
IsFile error, but `List ""` on the parent-scoped view returns the whole
parent listing — two entries here, not exactly one. -/
theorem newFs_root_is_file_counterexample :
    backendNewFsRoot cexWorld ["a", "b", "r"] =
      (["a", "b"], NewFsOutcome.isFile) ∧
    fsList cexWorld ["a", "b"] [] = some [("r", false), ("o", false)] ∧
    (fsList cexWorld ["a", "b"] []).map List.length ≠ some 1 := by
  decide

theorem dropLast_append_getLastD {α : Type} (l : List α) (h : l ≠ [])
    (d : α) : l.dropLast ++ [l.getLastD d] = l := by
  rw [List.getLastD_eq_getLast? d l, List.getLast?_eq_getLast l h]
  exact List.dropLast_append_getLast h

/-- C1, amended: when the configured root names an existing file whose
parent exists as a directory (and the root itself is not a directory),
`NewFs` re-roots on the parent and returns the IsFile outcome, and
`List ""` on the parent-scoped view succeeds and contains exactly one
entry representing that file — the full listing of the parent, which
has exactly one entry in total only when the file is the parent's sole
child. -/
theorem newFs_root_is_file (w : FsWorld) (root : DPath)
    (hroot : root ≠ [])
    (hnotdir : w.dirs.contains root = false)
    (hparent : w.dirs.contains root.dropLast = true)
    (hfile : w.files.contains root = true)
    (hnodup : w.files.Nodup) :
    backendNewFsRoot w root = (root.dropLast, NewFsOutcome.isFile) ∧
    ∃ entries, fsList w root.dropLast [] = some entries ∧
      (entries.countP fun e =>
        e.1 == root.getLastD "" && !e.2) = 1 := by
  have hsplit : root.dropLast ++ [root.getLastD ""] = root :=
    dropLast_append_getLastD root hroot ""
  constructor
  · unfold backendNewFsRoot findRootOk splitPath
    simp only [hsplit, hnotdir, hparent, hfile, Bool.false_eq_true,
      if_false, if_true]
  · refine ⟨childEntries w root.dropLast, ?_, ?_⟩
    · unfold fsList findRootOk
      simp only [List.append_nil, hparent, if_true]
    · unfold childEntries
      rw [List.countP_append]
      have hdirs0 :
          (((w.dirs.filter fun p =>
              p.dropLast == root.dropLast && !p.isEmpty).map
            fun p => (p.getLastD "", true)).countP fun e =>
              e.1 == root.getLastD "" && !e.2) = 0 := by
        rw [List.countP_eq_zero]
        intro e he
        simp only [List.mem_map] at he
        rcases he with ⟨p, _, rfl⟩
        simp
      have hrootne : root.isEmpty = false := by
        cases root with
        | nil => exact absurd rfl hroot
        | cons a as => rfl
      have hfiles1 :
          (((w.files.filter fun p =>
              p.dropLast == root.dropLast && !p.isEmpty).map
            fun p => (p.getLastD "", false)).countP fun e =>
              e.1 == root.getLastD "" && !e.2) = 1 := by
        rw [List.countP_map, List.countP_filter]
        have hcongr :
            (w.files.countP fun a =>
              ((fun e => e.1 == root.getLastD "" && !e.2) ∘
                fun p => (p.getLastD "", false)) a &&
              (a.dropLast == root.dropLast && !a.isEmpty)) =
            w.files.countP fun p => p == root := by
          apply List.countP_congr
          intro p _
          simp only [Function.comp_apply]
          by_cases hpr : p = root
          · subst hpr
            simp [hrootne]
          · constructor
            · intro hcond
              exfalso
              apply hpr
              simp only [Bool.and_eq_true, beq_iff_eq, Bool.not_false,
                Bool.and_true] at hcond
              obtain ⟨hlast, hdrop, hempty⟩ := hcond
              have hne : p ≠ [] := by
                intro hnil
                subst hnil
                simp at hempty
              calc p = p.dropLast ++ [p.getLastD ""] :=
                    (dropLast_append_getLastD p hne "").symm
                _ = root.dropLast ++ [root.getLastD ""] := by
                    rw [hdrop, hlast]
                _ = root := hsplit
            · intro hcond
              rw [beq_iff_eq] at hcond
              exact absurd hcond hpr
        rw [hcongr]
        have hmem : root ∈ w.files := by
          have h2 : w.files.contains root = decide (root ∈ w.files) := by
            simp [List.contains, List.elem_eq_mem]
          have h3 : decide (root ∈ w.files) = true := by
            rw [← h2]
            exact hfile
          exact of_decide_eq_true h3
        have hconv : (w.files.countP fun p => p == root) =
            w.files.countP fun p => decide (p = root) := by
          apply List.countP_congr
          intro p _
          simp [beq_iff_eq]
        rw [hconv]
        exact List.count_eq_one_of_mem hnodup hmem
      rw [hdirs0, hfiles1]

/-- Witness for the amended C1 in `cexWorld` with root a/b/r: the Fs is
re-rooted at a/b with the IsFile outcome and the listing contains
exactly one entry representing the file r. -/
theorem newFs_root_is_file_witness :
    backendNewFsRoot cexWorld ["a", "b", "r"] =
      ((["a", "b", "r"] : DPath).dropLast, NewFsOutcome.isFile) ∧
    ∃ entries,
      fsList cexWorld (["a", "b", "r"] : DPath).dropLast [] =
        some entries ∧
      (entries.countP fun e =>
        e.1 == (["a", "b", "r"] : DPath).getLastD "" && !e.2) = 1 :=
  newFs_root_is_file cexWorld ["a", "b", "r"] (by decide) (by decide)
    (by decide) (by decide) (by decide)

end RcloneCore
